import Mathlib

/-!
Verification development for the replay-buffer module
(src/phase_03_dqn/utils/replay_buffer.py).

Shallow embedding conventions:
* Python floats are modelled as exact rationals (ℚ); values produced by the
  float power operator x ** y with non-integer exponent live in ℝ via
  Real.rpow.
* states and actions are opaque type parameters S and A.
* numpy arrays of priorities are Lists of ℚ; numpy scalar indexing semantics
  (negative-index wraparound, IndexError outside [-n, n)) are modelled
  explicitly.
* randomness (random.sample, np.random.choice) is modelled by passing the
  drawn indices as an explicit oracle argument; a draw is admissible exactly
  when the library could have produced it (distinct in-range indices for
  random.sample; in-range indices of positive probability for
  np.random.choice with replacement).
* fallible operations return Except String, carrying the Python exception.
-/

set_option autoImplicit false

namespace ReplayBufferPy

universe u v w
variable {S : Type u} {A : Type v}

/-- A transition as stored by the uniform ReplayBuffer: the 6-tuple
(state, action, reward, next_state, done, next_action) pushed at line 16;
next_action defaults to None in the source. -/
structure UTrans (S : Type u) (A : Type v) where
  state : S
  action : A
  reward : ℚ
  next_state : S
  done : Bool
  next_action : Option A
deriving DecidableEq

/-- A transition as stored by the two prioritized buffers: the 5-tuple
(state, action, reward, next_state, done). -/
structure PTrans (S : Type u) (A : Type v) where
  state : S
  action : A
  reward : ℚ
  next_state : S
  done : Bool
deriving DecidableEq

/-- numpy ndarray.max over a list; numpy raises on an empty array, the [] case
below is a junk value that the theorems never rely on (all uses are guarded by
non-emptiness exactly as in the source). -/
def npMax {α : Type} [LinearOrder α] [Zero α] : List α → α
  | [] => 0
  | x :: xs => xs.foldl max x

/-- samples = [memory[i] for i in indices] : gathers entries, None when an
index is out of range. -/
def listAt (l : List (PTrans S A)) : List ℕ → Option (List (PTrans S A))
  | [] => some []
  | i :: rest =>
    match l[i]?, listAt l rest with
    | some x, some xs => some (x :: xs)
    | _, _ => none

/-! ## class ReplayBuffer (uniform, lines 6-32) -/

/-- State of the uniform ReplayBuffer: capacity, the backing list (slots start
as None via buffer.append(None)), and the write cursor pos. The device field
is irrelevant to the data structure and omitted. -/
structure ReplayBuffer (S : Type u) (A : Type v) where
  capacity : ℕ
  buffer : List (Option (UTrans S A))
  pos : ℕ
deriving DecidableEq

/-- ReplayBuffer.__init__ (lines 7-11): stores capacity, empty list, pos = 0;
performs no validation of any kind. -/
def mkReplayBuffer (capacity : ℕ) : ReplayBuffer S A :=
  { capacity := capacity, buffer := [], pos := 0 }

/-- ReplayBuffer.push (lines 13-17): append a None slot while under capacity,
write the tuple at index pos, advance pos modulo capacity.
(For capacity = 0 Python raises ZeroDivisionError at the modulo; in ℕ, n % 0
is n, so theorems about push assume 0 < capacity.) -/
def ReplayBuffer.push (b : ReplayBuffer S A) (t : UTrans S A) : ReplayBuffer S A :=
  let buf := if b.buffer.length < b.capacity then b.buffer ++ [none] else b.buffer
  { b with buffer := buf.set b.pos (some t), pos := (b.pos + 1) % b.capacity }

/-- ReplayBuffer.__len__ (lines 31-32). -/
def ReplayBuffer.len (b : ReplayBuffer S A) : ℕ := b.buffer.length

/-- Batch returned by ReplayBuffer.sample, one parallel container per field
(lines 23-29). -/
structure USample (S : Type u) (A : Type v) where
  states : List S
  actions : List A
  rewards : List ℚ
  next_states : List S
  dones : List Bool
  next_actions : List A
deriving DecidableEq

/-- Turns a list of sampled slots into the returned field containers.
Line 28 of the source builds the next_actions tensor from the zipped
actions tuple (torch.tensor(actions, ...)), so next_actions below is
batch.map action, not batch.map next_action. -/
def uniformBatchOut (batch : List (UTrans S A)) : USample S A :=
  { states := batch.map (·.state)
    actions := batch.map (·.action)
    rewards := batch.map (·.reward)
    next_states := batch.map (·.next_state)
    dones := batch.map (·.done)
    next_actions := batch.map (·.action) }

/-- Gathers the slots named by idxs; None if an index is out of range or the
slot was never filled (a never-filled slot would make zip(*batch) raise). -/
def slotsAt (buf : List (Option (UTrans S A))) : List ℕ → Option (List (UTrans S A))
  | [] => some []
  | i :: rest =>
    match (buf[i]?).join, slotsAt buf rest with
    | some x, some xs => some (x :: xs)
    | _, _ => none

/-- ReplayBuffer.sample (lines 19-29). random.sample draws batch_size distinct
elements without replacement and raises ValueError when batch_size exceeds the
population; the drawn indices are supplied by the oracle idxs and are
admissible when they are batch_size distinct in-range positions. -/
def ReplayBuffer.sample (b : ReplayBuffer S A) (batch_size : ℕ) (idxs : List ℕ) :
    Except String (USample S A) :=
  if b.buffer.length < batch_size then
    .error "ValueError: Sample larger than population or is negative"
  else if idxs.length = batch_size ∧ idxs.Nodup ∧ ∀ i ∈ idxs, i < b.buffer.length then
    match slotsAt b.buffer idxs with
    | some batch => .ok (uniformBatchOut batch)
    | none => .error "TypeError: cannot unpack an unfilled slot"
  else .error "inadmissible draw oracle"

/-! ## class PriortizedReplayBuffer (lines 35-95) -/

/-- State of PriortizedReplayBuffer: the priorities list models the
np.zeros((capacity,)) float array (length is always capacity). -/
structure PriortizedReplayBuffer (S : Type u) (A : Type v) where
  capacity : ℕ
  alpha : ℚ
  beta : ℚ
  beta_increment : ℚ
  epsilon : ℚ
  memory : List (PTrans S A)
  priorities : List ℚ
  pos : ℕ
deriving DecidableEq

/-- PriortizedReplayBuffer.__init__ (lines 36-46): the only way construction
can fail is np.zeros((capacity,)) rejecting a negative dimension; no
parameter is otherwise validated. -/
def mkPriortizedReplayBuffer (capacity : ℤ)
    (alpha beta beta_increment_per_sampling epsilon : ℚ) :
    Option (PriortizedReplayBuffer S A) :=
  if capacity < 0 then none
  else some
    { capacity := capacity.toNat
      alpha := alpha
      beta := beta
      beta_increment := beta_increment_per_sampling
      epsilon := epsilon
      memory := []
      priorities := List.replicate capacity.toNat 0
      pos := 0 }

/-- PriortizedReplayBuffer.push (lines 48-57): max_prior is
self.priorities.max() (over the whole capacity-length array) when memory is
non-empty, else 1.0; append while under capacity, else overwrite slot pos;
write max_prior into priorities[pos]; advance pos modulo capacity. -/
def PriortizedReplayBuffer.push (b : PriortizedReplayBuffer S A) (t : PTrans S A) :
    PriortizedReplayBuffer S A :=
  let max_prior : ℚ := if b.memory.isEmpty then 1 else npMax b.priorities
  let memory' := if b.memory.length < b.capacity then b.memory ++ [t] else b.memory.set b.pos t
  { b with
    memory := memory'
    priorities := b.priorities.set b.pos max_prior
    pos := (b.pos + 1) % b.capacity }

/-- PriortizedReplayBuffer.__len__ (lines 94-95). -/
def PriortizedReplayBuffer.len (b : PriortizedReplayBuffer S A) : ℕ := b.memory.length

/-- numpy scalar index normalization: a negative index idx with
-n ≤ idx wraps to idx + n. -/
def npNormIdx (n : ℕ) (idx : ℤ) : ℕ :=
  if idx < 0 then (idx + n).toNat else idx.toNat

/-- The loop of update_priorities (lines 90-92): assigns priorities[idx] one
pair at a time; numpy raises IndexError at the first index outside
[-capacity, capacity), leaving earlier assignments in place. Returns the
final array and whether IndexError was raised. -/
def npUpdateLoop (capacity : ℕ) (priorities : List ℚ) :
    List (ℤ × ℚ) → List ℚ × Bool
  | [] => (priorities, false)
  | (idx, prior) :: rest =>
    if -(capacity : ℤ) ≤ idx ∧ idx < (capacity : ℤ) then
      npUpdateLoop capacity (priorities.set (npNormIdx capacity idx) prior) rest
    else (priorities, true)

/-- PriortizedReplayBuffer.update_priorities (lines 90-92): zip truncates to
the shorter argument; the Bool records whether IndexError was raised. -/
def PriortizedReplayBuffer.update_priorities (b : PriortizedReplayBuffer S A)
    (indicies : List ℤ) (new_prior : List ℚ) : PriortizedReplayBuffer S A × Bool :=
  let res := npUpdateLoop b.capacity b.priorities (indicies.zip new_prior)
  ({ b with priorities := res.1 }, res.2)

/-! ## Shared sampling machinery of the two prioritized buffers
(PriortizedReplayBuffer.sample, lines 59-88, and RainbowReplayBuffer.sample,
lines 133-162, are textually identical; they are embedded once below and
wrapped per class). -/

/-- Batch returned by the prioritized sample methods (lines 88 / 162):
field containers plus IS weights and the raw sampled indices. -/
structure PSample (S : Type u) (A : Type v) where
  states : List S
  actions : List A
  rewards : List ℚ
  next_states : List S
  dones : List Bool
  weights : List ℝ
  indices : List ℕ

open Classical

/-- np.random.choice(a, size, p=probs) with the default replace=True
(lines 69 / 143).  It raises for a = 0, for a probability vector of the wrong
length, containing a negative entry, or not summing to 1 (numpy checks the sum
up to a tolerance; real arithmetic makes the normalized sum exact).  With
replacement there is no check of size against a.  The drawn indices are
supplied by the oracle draws; a draw is admissible when it has the requested
size and every drawn index is in range with positive probability. -/
noncomputable def npChoice (a : ℕ) (size : ℕ) (p : List ℝ) (draws : List ℕ) :
    Except String (List ℕ) :=
  if a = 0 then .error "ValueError: a must be greater than 0 unless no samples are taken"
  else if p.length ≠ a then .error "ValueError: a and p must have same size"
  else if ¬ (∀ x ∈ p, 0 ≤ x) then .error "ValueError: probabilities are not non-negative"
  else if p.sum ≠ 1 then .error "ValueError: probabilities do not sum to 1"
  else if draws.length = size ∧ ∀ i ∈ draws, i < a ∧ 0 < p.getD i 0 then .ok draws
  else .error "inadmissible draw oracle"

/-- Lines 81-83 / 155-157: unnormalized IS weights
(total * probs[idx]) ** (-beta), then division by their maximum. -/
noncomputable def isWeights (total : ℕ) (probs : List ℝ) (beta : ℚ) (indices : List ℕ) :
    List ℝ :=
  let uw : List ℝ := indices.map (fun i => ((total : ℝ) * probs.getD i 0) ^ (-(beta : ℝ)))
  uw.map (fun w => w / npMax uw)

/-- Lines 60-67 / 134-141 of the two sample methods: priorties is the full
priority array when the memory is full, else its prefix up to pos; probs is
the power-law vector (priorties + epsilon) ** alpha normalized by its sum
(memlen stands for len(self.memory)). -/
noncomputable def priorityProbs (capacity : ℕ) (alpha epsilon : ℚ)
    (priorities : List ℚ) (pos memlen : ℕ) : List ℝ :=
  let priorties := if memlen = capacity then priorities else priorities.take pos
  let unnorm : List ℝ := priorties.map (fun p : ℚ => ((p : ℝ) + (epsilon : ℝ)) ^ ((alpha : ℝ)))
  unnorm.map (fun x => x / unnorm.sum)

/-- The shared body of the two sample methods (lines 59-88 / 133-162), minus
the beta update which mutates the object and is applied by the per-class
wrappers.  Indices come from np.random.choice with replacement;
weights.max() on an empty numpy array raises, hence the isEmpty guard. -/
noncomputable def prioritySampleOut (capacity : ℕ) (alpha beta epsilon : ℚ)
    (memory : List (PTrans S A)) (priorities : List ℚ) (pos : ℕ)
    (batch_size : ℕ) (draws : List ℕ) : Except String (PSample S A) :=
  let probs : List ℝ := priorityProbs capacity alpha epsilon priorities pos memory.length
  match npChoice memory.length batch_size probs draws with
  | .error e => .error e
  | .ok indices =>
    match listAt memory indices with
    | none => .error "IndexError: index out of bounds"
    | some samples =>
      if indices.isEmpty then .error "ValueError: zero-size array to reduction operation maximum"
      else .ok
        { states := samples.map (·.state)
          actions := samples.map (·.action)
          rewards := samples.map (·.reward)
          next_states := samples.map (·.next_state)
          dones := samples.map (·.done)
          weights := isWeights memory.length probs beta indices
          indices := indices }

/-- PriortizedReplayBuffer.sample (lines 59-88): on success the object's beta
is advanced to min(1.0, beta + beta_increment) (line 84); on a raise the
update at line 84 is never reached. -/
noncomputable def PriortizedReplayBuffer.sample (b : PriortizedReplayBuffer S A)
    (batch_size : ℕ) (draws : List ℕ) :
    Except String (PSample S A × PriortizedReplayBuffer S A) :=
  (prioritySampleOut b.capacity b.alpha b.beta b.epsilon b.memory b.priorities b.pos
      batch_size draws).map
    (fun out => (out, { b with beta := min 1 (b.beta + b.beta_increment) }))

/-! ## class RainbowReplayBuffer (lines 98-179) -/

/-- State of RainbowReplayBuffer: the prioritized store plus the n-step
sliding window (collections.deque with maxlen = nstep).  The class exposes no
discount parameter: `_get_nstep_info` discounts with self.alpha. -/
structure RainbowReplayBuffer (S : Type u) (A : Type v) where
  capacity : ℕ
  alpha : ℚ
  beta : ℚ
  beta_increment : ℚ
  epsilon : ℚ
  memory : List (PTrans S A)
  priorities : List ℚ
  pos : ℕ
  nstep : ℕ
  nstep_buffer : List (PTrans S A)
deriving DecidableEq

/-- RainbowReplayBuffer.__init__ (lines 99-111): construction fails only for
np.zeros((capacity,)) with negative capacity (line 107) or
deque(maxlen=nstep) with negative nstep (line 110); nothing else is
validated.  There is no gamma/discount parameter. -/
def mkRainbowReplayBuffer (capacity nstep : ℤ)
    (alpha beta beta_increment_per_sampling epsilon : ℚ) :
    Option (RainbowReplayBuffer S A) :=
  if capacity < 0 then none
  else if nstep < 0 then none
  else some
    { capacity := capacity.toNat
      alpha := alpha
      beta := beta
      beta_increment := beta_increment_per_sampling
      epsilon := epsilon
      memory := []
      priorities := List.replicate capacity.toNat 0
      pos := 0
      nstep := nstep.toNat
      nstep_buffer := [] }

/-- deque(maxlen=m).append: appends on the right and silently drops from the
left once over maxlen. -/
def dequeAppend {T : Type u} (maxlen : ℕ) (l : List T) (t : T) : List T :=
  let l' := l ++ [t]
  l'.drop (l'.length - maxlen)

/-- One iteration of the loop in _get_nstep_info (lines 171-174), folding a
window entry into the running (reward, next_state, done) accumulator:
reward becomes transition.reward + alpha * reward * (1 - transition.done)
(line 173 multiplies by self.alpha, the priority exponent; the class has no
gamma), and (next_state, done) are replaced by the entry's values whenever
its done flag is true. -/
def nstepFoldStep (alpha : ℚ) (acc : ℚ × S × Bool) (tr : PTrans S A) : ℚ × S × Bool :=
  let reward := tr.reward + alpha * acc.1 * (1 - if tr.done then (1 : ℚ) else 0)
  if tr.done then (reward, tr.next_state, tr.done) else (reward, acc.2.1, acc.2.2)

/-- RainbowReplayBuffer._get_nstep_info (lines 168-176): start from the last
window entry's (reward, next_state, done) and fold the remaining entries from
most-recent-but-one back to the oldest (reversed(list(nstep_buffer)[:-1])).
None models the IndexError on an empty window (never reached in normal
operation). -/
def getNstepInfo (alpha : ℚ) (w : List (PTrans S A)) : Option (ℚ × S × Bool) :=
  match w.reverse with
  | [] => none
  | last :: rest => some (rest.foldl (nstepFoldStep alpha) (last.reward, last.next_state, last.done))

/-- RainbowReplayBuffer.push (lines 113-131).  The first parameter nstep of
the Python method shadows self.nstep and is never read; it is kept as an
ignored argument.  Append to the window; return early while the window is
short of self.nstep; otherwise fold, take state/action from the window's
oldest entry, and insert with the same max-priority rule as the prioritized
buffer.  Line 123 stores the raw done of the current push in the folded
tuple, not the n_done computed at line 120.  The two anonymous-constructor
fallbacks model the IndexError paths for nstep = 0 (empty window reaching the
fold). -/
def RainbowReplayBuffer.push (b : RainbowReplayBuffer S A) (_nstepArg : ℕ) (t : PTrans S A) :
    RainbowReplayBuffer S A :=
  let nb := dequeAppend b.nstep b.nstep_buffer t
  if nb.length < b.nstep then { b with nstep_buffer := nb }
  else
    match nb.head?, getNstepInfo b.alpha nb with
    | some t0, some (n_reward, n_next_state, _n_done) =>
      let max_prior : ℚ := if b.memory.isEmpty then 1 else npMax b.priorities
      let data : PTrans S A :=
        { state := t0.state, action := t0.action, reward := n_reward
          next_state := n_next_state, done := t.done }
      let memory' :=
        if b.memory.length < b.capacity then b.memory ++ [data] else b.memory.set b.pos data
      { b with
        nstep_buffer := nb
        memory := memory'
        priorities := b.priorities.set b.pos max_prior
        pos := (b.pos + 1) % b.capacity }
    | _, _ => { b with nstep_buffer := nb }

/-- RainbowReplayBuffer.sample (lines 133-162), identical body to
PriortizedReplayBuffer.sample. -/
noncomputable def RainbowReplayBuffer.sample (b : RainbowReplayBuffer S A)
    (batch_size : ℕ) (draws : List ℕ) :
    Except String (PSample S A × RainbowReplayBuffer S A) :=
  (prioritySampleOut b.capacity b.alpha b.beta b.epsilon b.memory b.priorities b.pos
      batch_size draws).map
    (fun out => (out, { b with beta := min 1 (b.beta + b.beta_increment) }))

/-- RainbowReplayBuffer.update_priorities (lines 164-166), identical body to
PriortizedReplayBuffer.update_priorities. -/
def RainbowReplayBuffer.update_priorities (b : RainbowReplayBuffer S A)
    (indicies : List ℤ) (new_prior : List ℚ) : RainbowReplayBuffer S A × Bool :=
  let res := npUpdateLoop b.capacity b.priorities (indicies.zip new_prior)
  ({ b with priorities := res.1 }, res.2)

/-- RainbowReplayBuffer.__len__ (lines 178-179). -/
def RainbowReplayBuffer.len (b : RainbowReplayBuffer S A) : ℕ := b.memory.length

/-! ## Iterated pushes (used to state the length law of the spec). -/

/-- Fold a sequence of pushes into the uniform buffer. -/
def ReplayBuffer.pushList (b : ReplayBuffer S A) (ts : List (UTrans S A)) : ReplayBuffer S A :=
  ts.foldl ReplayBuffer.push b

/-- Fold a sequence of pushes into the prioritized buffer. -/
def PriortizedReplayBuffer.pushList (b : PriortizedReplayBuffer S A) (ts : List (PTrans S A)) :
    PriortizedReplayBuffer S A :=
  ts.foldl PriortizedReplayBuffer.push b

/-- Fold a sequence of pushes into the n-step buffer (the ignored first
argument of push is passed as self.nstep, matching how trainers call it). -/
def RainbowReplayBuffer.pushList (b : RainbowReplayBuffer S A) (ts : List (PTrans S A)) :
    RainbowReplayBuffer S A :=
  ts.foldl (fun b t => b.push b.nstep t) b

/-! ## Concrete instances (used to evaluate the definitions on explicit
inputs in the theorems below). -/

/-- Fresh n-step buffer with capacity 8, nstep 3 and the constructor's
default parameters alpha 0.6, beta 0.4, beta_increment 0.001,
epsilon 0.00001. -/
def rbDefault : RainbowReplayBuffer ℤ ℤ :=
  { capacity := 8, alpha := 3/5, beta := 2/5, beta_increment := 1/1000
    epsilon := 1/100000, memory := [], priorities := List.replicate 8 0
    pos := 0, nstep := 3, nstep_buffer := [] }

/-- Same fresh n-step buffer but with alpha set to 0.9. -/
def rbAlpha09 : RainbowReplayBuffer ℤ ℤ :=
  { rbDefault with alpha := 9/10 }

/-- Three-step episode with rewards 1,1,1 and done flags false,false,true. -/
def tA : PTrans ℤ ℤ := { state := 10, action := 0, reward := 1, next_state := 11, done := false }

def tB : PTrans ℤ ℤ := { state := 11, action := 1, reward := 1, next_state := 12, done := false }

def tC : PTrans ℤ ℤ := { state := 12, action := 2, reward := 1, next_state := 13, done := true }

/-- Window whose oldest entry terminates: done flags true,false,false
(an episode boundary inside the n-step window). -/
def uA : PTrans ℤ ℤ := { state := 20, action := 0, reward := 5, next_state := 21, done := true }

def uB : PTrans ℤ ℤ := { state := 21, action := 1, reward := 7, next_state := 22, done := false }

def uC : PTrans ℤ ℤ := { state := 22, action := 2, reward := 11, next_state := 23, done := false }

/-- Fresh prioritized buffer with capacity 2, alpha 0, beta 0 (alpha and beta
are legal-range extremes that keep the power laws trivial) and the default
beta_increment and epsilon. -/
def prbEmpty2 : PriortizedReplayBuffer ℤ ℤ :=
  { capacity := 2, alpha := 0, beta := 0, beta_increment := 1/1000
    epsilon := 1/100000, memory := [], priorities := [0, 0], pos := 0 }

/-- One transition pushed into prbEmpty2: length 1, priorities [1, 0], pos 1. -/
def prbOne : PriortizedReplayBuffer ℤ ℤ :=
  prbEmpty2.push { state := 5, action := 1, reward := 2, next_state := 6, done := false }

/-- Fresh n-step buffer with capacity 2, nstep 1, alpha 0, beta 0. -/
def rrbEmpty2 : RainbowReplayBuffer ℤ ℤ :=
  { capacity := 2, alpha := 0, beta := 0, beta_increment := 1/1000
    epsilon := 1/100000, memory := [], priorities := [0, 0], pos := 0
    nstep := 1, nstep_buffer := [] }

/-- One transition pushed into rrbEmpty2 (nstep 1, so the window is
immediately full and the store receives one folded transition). -/
def rrbOne : RainbowReplayBuffer ℤ ℤ :=
  rrbEmpty2.push 1 { state := 5, action := 1, reward := 2, next_state := 6, done := false }

/-- Prioritized buffer with capacity 4 and all four priority slots at 1. -/
def prbFour : PriortizedReplayBuffer ℤ ℤ :=
  { capacity := 4, alpha := 3/5, beta := 2/5, beta_increment := 1/1000
    epsilon := 1/100000
    memory :=
      [ { state := 0, action := 0, reward := 0, next_state := 1, done := false }
      , { state := 1, action := 0, reward := 0, next_state := 2, done := false }
      , { state := 2, action := 0, reward := 0, next_state := 3, done := false }
      , { state := 3, action := 0, reward := 0, next_state := 4, done := false } ]
    priorities := [1, 1, 1, 1], pos := 0 }

/-- Prioritized buffer with capacity 2, one stored transition, priority 2. -/
def prbHalf : PriortizedReplayBuffer ℤ ℤ :=
  { capacity := 2, alpha := 3/5, beta := 2/5, beta_increment := 1/1000
    epsilon := 1/100000
    memory := [ { state := 7, action := 3, reward := 1, next_state := 8, done := false } ]
    priorities := [2, 0], pos := 1 }

/-- n-step buffer with capacity 2, nstep 2, a one-entry window (so the next
push fills it), one stored transition, priority 2. -/
def rrbHalf : RainbowReplayBuffer ℤ ℤ :=
  { capacity := 2, alpha := 3/5, beta := 2/5, beta_increment := 1/1000
    epsilon := 1/100000
    memory := [ { state := 7, action := 3, reward := 1, next_state := 8, done := false } ]
    priorities := [2, 0], pos := 1, nstep := 2
    nstep_buffer := [ { state := 6, action := 2, reward := 1, next_state := 7, done := false } ] }

/-- Uniform buffer with capacity 2 holding one transition whose stored
next_action (9) differs from its action (2). -/
def ubOne : ReplayBuffer ℤ ℤ :=
  (mkReplayBuffer 2).push
    { state := 1, action := 2, reward := 3, next_state := 4, done := false, next_action := some 9 }

/-! ## Helper lemmas -/

theorem foldl_max_init_le {α : Type} [LinearOrder α] (l : List α) (a : α) :
    a ≤ l.foldl max a := by
  induction l generalizing a with
  | nil => exact le_refl a
  | cons x xs ih => exact le_trans (le_max_left a x) (ih (max a x))

theorem foldl_max_le_of_mem {α : Type} [LinearOrder α] (l : List α) (a x : α) (hx : x ∈ l) :
    x ≤ l.foldl max a := by
  induction l generalizing a with
  | nil => cases hx
  | cons y ys ih =>
    rw [List.foldl_cons]
    rcases List.mem_cons.mp hx with rfl | h
    · exact le_trans (le_max_right a x) (foldl_max_init_le ys (max a x))
    · exact ih (max a y) h

theorem foldl_max_mem_or_init {α : Type} [LinearOrder α] (l : List α) (a : α) :
    l.foldl max a = a ∨ l.foldl max a ∈ l := by
  induction l generalizing a with
  | nil => exact Or.inl rfl
  | cons x xs ih =>
    rcases ih (max a x) with h | h
    · rcases max_cases a x with ⟨he, _⟩ | ⟨he, _⟩
      · exact Or.inl (by rw [List.foldl_cons, h, he])
      · exact Or.inr (by rw [List.foldl_cons, h, he]; exact List.mem_cons_self x xs)
    · exact Or.inr (List.mem_cons_of_mem x h)

theorem foldl_max_zeros {α : Type} [LinearOrder α] [Zero α] (z : List α) (a : α)
    (ha : 0 ≤ a) (hz : ∀ p ∈ z, p = 0) : z.foldl max a = a := by
  induction z with
  | nil => rfl
  | cons x xs ih =>
    have hx : x = 0 := hz x (List.mem_cons_self x xs)
    rw [List.foldl_cons, hx, max_eq_left ha]
    exact ih fun p hp => hz p (List.mem_cons_of_mem x hp)

theorem le_npMax {α : Type} [LinearOrder α] [Zero α] (l : List α) (x : α) (hx : x ∈ l) :
    x ≤ npMax l := by
  cases l with
  | nil => cases hx
  | cons y ys =>
    rcases List.mem_cons.mp hx with h | h
    · exact h ▸ foldl_max_init_le ys y
    · exact foldl_max_le_of_mem ys y x h

theorem npMax_mem {α : Type} [LinearOrder α] [Zero α] (l : List α) (h : l ≠ []) :
    npMax l ∈ l := by
  cases l with
  | nil => exact absurd rfl h
  | cons y ys =>
    show ys.foldl max y ∈ y :: ys
    rcases foldl_max_mem_or_init ys y with h' | h'
    · rw [h']; exact List.mem_cons_self y ys
    · exact List.mem_cons_of_mem y h'

theorem npMax_append_zeros {α : Type} [LinearOrder α] [Zero α] (v z : List α)
    (hv : v ≠ []) (hnn : ∀ p ∈ v, 0 ≤ p) (hz : ∀ p ∈ z, p = 0) :
    npMax (v ++ z) = npMax v := by
  cases v with
  | nil => exact absurd rfl hv
  | cons x xs =>
    show (xs ++ z).foldl max x = xs.foldl max x
    rw [List.foldl_append]
    exact foldl_max_zeros z _
      (le_trans (hnn x (List.mem_cons_self x xs)) (foldl_max_init_le xs x)) hz

/-- numpy's max over the whole priority array agrees with the max over the
valid prefix as long as the trailing slots still hold their initial zeros and
the valid priorities are non-negative. -/
theorem npMax_eq_npMax_take {α : Type} [LinearOrder α] [Zero α] (l : List α) (m : ℕ)
    (hm : 1 ≤ m) (hml : m ≤ l.length)
    (hnn : ∀ p ∈ l, 0 ≤ p) (hz : ∀ p ∈ l.drop m, p = 0) :
    npMax l = npMax (l.take m) := by
  have htne : l.take m ≠ [] := by
    intro h
    have hlen := List.length_take m l
    rw [h] at hlen
    simp at hlen
    omega
  conv_lhs => rw [← List.take_append_drop m l]
  exact npMax_append_zeros (l.take m) (l.drop m) htne
    (fun p hp => hnn p (List.take_subset m l hp)) hz

theorem getD_set_self {α : Type} (l : List α) (i : ℕ) (v d : α) (h : i < l.length) :
    (l.set i v).getD i d = v := by
  have h' : i < (l.set i v).length := by simpa using h
  rw [List.getD_eq_getElem _ _ h']
  simp [List.getElem_set]

theorem getD_set_ne {α : Type} (l : List α) (i j : ℕ) (v d : α) (h : i ≠ j) :
    (l.set i v).getD j d = l.getD j d := by
  rcases lt_or_le j l.length with hj | hj
  · have hj' : j < (l.set i v).length := by simpa using hj
    rw [List.getD_eq_getElem _ _ hj', List.getD_eq_getElem _ _ hj]
    simp [List.getElem_set, h]
  · rw [List.getD_eq_default _ _ (by simpa using hj), List.getD_eq_default _ _ hj]

/-! ## Claim C1 -/

/-- C1: the spec's concrete n-step scenario (nstep = 3, discount gamma = 0.9,
rewards 1,1,1, dones false,false,true folding to reward 2.71).  The code
exposes no gamma: _get_nstep_info discounts with self.alpha, the priority
exponent.  With the constructor defaults (alpha = 0.6) the single folded
transition has reward 1 + 0.6·(1 + 0.6·1) = 1.96, not 2.71; only by setting
alpha itself to 0.9 does the scenario produce reward 2.71 with done true and
next_state equal to the third push's next_state. -/
theorem c1_fold_discount_is_alpha_eval :
    mkRainbowReplayBuffer (S := ℤ) (A := ℤ) 8 3 (3/5) (2/5) (1/1000) (1/100000)
        = some rbDefault
    ∧ (((rbDefault.push 3 tA).push 3 tB).push 3 tC).memory
        = [{ state := 10, action := 0, reward := 49/25, next_state := 13, done := true }]
    ∧ (49/25 : ℚ) ≠ 271/100
    ∧ (((rbAlpha09.push 3 tA).push 3 tB).push 3 tC).memory
        = [{ state := 10, action := 0, reward := 271/100, next_state := 13, done := true }] := by
  refine ⟨rfl, ?_, by norm_num, ?_⟩
  · norm_num [RainbowReplayBuffer.push, dequeAppend, getNstepInfo, nstepFoldStep,
      rbDefault, tA, tB, tC, npMax, List.replicate]
  · norm_num [RainbowReplayBuffer.push, dequeAppend, getNstepInfo, nstepFoldStep,
      rbAlpha09, rbDefault, tA, tB, tC, npMax, List.replicate]

/-! ## Claim C2 -/

/-- C2: when the earliest entry of a full n-step window terminates (dones
true,false,false), _get_nstep_info correctly folds to
(reward, next_state, done) = (5, 21, true) — reward truncated at the
termination and next_state taken from the terminating entry — but push
(line 123) stores the raw done of the latest push (false) instead of the
computed n_done (true), so the transition inserted into the store carries
done = false. -/
theorem c2_folded_done_is_raw_done_eval :
    getNstepInfo (3/5) [uA, uB, uC] = some (5, 21, true)
    ∧ (((rbDefault.push 3 uA).push 3 uB).push 3 uC).memory
        = [{ state := 20, action := 0, reward := 5, next_state := 21, done := false }] := by
  refine ⟨?_, ?_⟩
  · norm_num [getNstepInfo, nstepFoldStep, uA, uB, uC]
  · norm_num [RainbowReplayBuffer.push, dequeAppend, getNstepInfo, nstepFoldStep,
      rbDefault, uA, uB, uC, npMax, List.replicate]

/-! ## Claim C5 -/

/-- C5 counterexample: constructing PriortizedReplayBuffer with capacity 0
(non-positive) and alpha = beta = 2 (outside [0,1]) succeeds; no
ConfigurationError is raised at construction time, contradicting the claim. -/
theorem c5_counterexample :
    (mkPriortizedReplayBuffer (S := ℤ) (A := ℤ) 0 2 2 (1/1000) (1/100000)).isSome = true := by
  rfl

/-- C5 amended: the constructors perform no configuration validation.
Construction of either prioritized variant succeeds for every alpha, beta,
beta_increment and epsilon, and for capacity 0 (and nstep 0); the only
constructions that fail are a negative capacity (np.zeros rejects a negative
dimension) and, for the n-step variant, a negative nstep (deque rejects a
negative maxlen).  Misconfiguration is not rejected at construction time. -/
theorem c5_amended :
    (∀ (capacity : ℤ) (alpha beta inc eps : ℚ),
        (mkPriortizedReplayBuffer (S := ℤ) (A := ℤ) capacity alpha beta inc eps).isSome
          ↔ 0 ≤ capacity)
    ∧ (∀ (capacity nstep : ℤ) (alpha beta inc eps : ℚ),
        (mkRainbowReplayBuffer (S := ℤ) (A := ℤ) capacity nstep alpha beta inc eps).isSome
          ↔ 0 ≤ capacity ∧ 0 ≤ nstep) := by
  constructor
  · intro capacity alpha beta inc eps
    unfold mkPriortizedReplayBuffer
    split_ifs with h
    · simp; omega
    · simp; omega
  · intro capacity nstep alpha beta inc eps
    unfold mkRainbowReplayBuffer
    split_ifs with h1 h2
    · simp; omega
    · simp; omega
    · simp; omega

/-! ## Claim C4 -/

/-- C4 counterexample: on a capacity-4 priority buffer, update_priorities
with index -1 — an index outside [0, capacity) — does not fail: numpy wraps
the negative index and silently overwrites slot 3. -/
theorem c4_counterexample :
    (prbFour.update_priorities [-1] [5]).2 = false
    ∧ (prbFour.update_priorities [-1] [5]).1.priorities = [1, 1, 1, 5] := by
  refine ⟨rfl, rfl⟩

/-! ## Claim C10 -/

/-- C10: the uniform ReplayBuffer's sample builds its sixth returned
component from the sampled actions field (line 28 passes actions, not
next_actions, to torch.tensor), so every successful sample returns
next_actions equal to actions, regardless of the next_action values stored
by push. -/
theorem c10_next_actions_eq_actions {S : Type u} {A : Type v}
    (b : ReplayBuffer S A) (batch_size : ℕ) (idxs : List ℕ) (out : USample S A)
    (h : b.sample batch_size idxs = .ok out) : out.next_actions = out.actions := by
  unfold ReplayBuffer.sample at h
  split_ifs at h
  · cases hs : slotsAt b.buffer idxs with
    | none => rw [hs] at h; cases h
    | some batch =>
      rw [hs] at h
      cases h
      rfl

/-- C10 witness: a concrete buffer whose stored transition has
next_action = 9 and action = 2; the sampled batch returns
next_actions = [2] = actions. -/
theorem c10_next_actions_eq_actions_witness :
    ubOne.sample 1 [0]
        = .ok { states := [1], actions := [2], rewards := [3], next_states := [4]
              , dones := [false], next_actions := [2] }
    ∧ ({ states := [1], actions := [2], rewards := [3], next_states := [4]
       , dones := [false], next_actions := [2] } : USample ℤ ℤ).next_actions
        = ({ states := [1], actions := [2], rewards := [3], next_states := [4]
           , dones := [false], next_actions := [2] } : USample ℤ ℤ).actions :=
  ⟨rfl, c10_next_actions_eq_actions ubOne 1 [0] _ rfl⟩

/-! ## Claim C7, counterexample -/

/-- C7 counterexample: one push into a fresh n-step buffer (capacity 8,
nstep 3) leaves the underlying store empty, so len() = 0 while
min(number_of_pushes, capacity) = 1. -/
theorem c7_counterexample :
    (rbDefault.pushList [tA]).len = 0
    ∧ (rbDefault.pushList [tA]).len ≠ min 1 rbDefault.capacity := by
  refine ⟨rfl, by decide⟩

/-! ## update_priorities loop lemmas -/

theorem npUpdateLoop_raises_iff (capacity : ℕ) (pairs : List (ℤ × ℚ)) :
    ∀ priorities : List ℚ,
      (npUpdateLoop capacity priorities pairs).2 = true
        ↔ ∃ p ∈ pairs, p.1 < -(capacity : ℤ) ∨ (capacity : ℤ) ≤ p.1 := by
  induction pairs with
  | nil => intro priorities; simp [npUpdateLoop]
  | cons hd tl ih =>
    intro priorities
    obtain ⟨idx, prior⟩ := hd
    unfold npUpdateLoop
    split_ifs with h
    · rw [ih]
      constructor
      · rintro ⟨p, hp, hcond⟩; exact ⟨p, List.mem_cons_of_mem _ hp, hcond⟩
      · rintro ⟨p, hp, hcond⟩
        rcases List.mem_cons.mp hp with rfl | hp'
        · exact absurd hcond (by omega)
        · exact ⟨p, hp', hcond⟩
    · simp only [true_iff]
      exact ⟨(idx, prior), List.mem_cons_self _ _, by omega⟩

theorem npUpdateLoop_untouched (capacity : ℕ) (j : ℕ) (pairs : List (ℤ × ℚ))
    (hj : ∀ p ∈ pairs, npNormIdx capacity p.1 ≠ j) :
    ∀ priorities : List ℚ,
      (npUpdateLoop capacity priorities pairs).1.getD j 0 = priorities.getD j 0 := by
  induction pairs with
  | nil => intro priorities; rfl
  | cons hd tl ih =>
    intro priorities
    obtain ⟨idx, prior⟩ := hd
    unfold npUpdateLoop
    split_ifs with h
    · rw [ih (fun p hp => hj p (List.mem_cons_of_mem _ hp))]
      exact getD_set_ne _ _ _ _ _ (hj (idx, prior) (List.mem_cons_self _ _))
    · rfl

/-! ## Claim C4, amended -/

/-- C4 amended: update_priorities fails with an IndexError precisely when
some index among the zip-paired ones lies outside [-capacity, capacity) —
indices in [-capacity, 0) do NOT fail, they wrap around numpy-style to slot
capacity + idx.  On every call, failing or not, the priority slots other
than those named by the (wrap-normalized) zipped indices are unchanged. -/
theorem c4_amended {S : Type u} {A : Type v} :
    (∀ (b : PriortizedReplayBuffer S A) (idxs : List ℤ) (prs : List ℚ),
      ((b.update_priorities idxs prs).2 = true
        ↔ ∃ p ∈ idxs.zip prs, p.1 < -(b.capacity : ℤ) ∨ (b.capacity : ℤ) ≤ p.1)
      ∧ ∀ j : ℕ, (∀ p ∈ idxs.zip prs, npNormIdx b.capacity p.1 ≠ j) →
          (b.update_priorities idxs prs).1.priorities.getD j 0 = b.priorities.getD j 0)
    ∧ (∀ (b : RainbowReplayBuffer S A) (idxs : List ℤ) (prs : List ℚ),
      ((b.update_priorities idxs prs).2 = true
        ↔ ∃ p ∈ idxs.zip prs, p.1 < -(b.capacity : ℤ) ∨ (b.capacity : ℤ) ≤ p.1)
      ∧ ∀ j : ℕ, (∀ p ∈ idxs.zip prs, npNormIdx b.capacity p.1 ≠ j) →
          (b.update_priorities idxs prs).1.priorities.getD j 0 = b.priorities.getD j 0) := by
  constructor
  · intro b idxs prs
    exact ⟨npUpdateLoop_raises_iff b.capacity (idxs.zip prs) b.priorities,
      fun j hj => npUpdateLoop_untouched b.capacity j (idxs.zip prs) hj b.priorities⟩
  · intro b idxs prs
    exact ⟨npUpdateLoop_raises_iff b.capacity (idxs.zip prs) b.priorities,
      fun j hj => npUpdateLoop_untouched b.capacity j (idxs.zip prs) hj b.priorities⟩

/-- C4 amended, witness: on the concrete capacity-4 buffer, index 4 is out
of range and raises, and slot 0 — not named by the indices — is unchanged. -/
theorem c4_amended_witness :
    ((prbFour.update_priorities [4] [7]).2 = true
      ↔ ∃ p ∈ ([(4 : ℤ)].zip [(7 : ℚ)]),
          p.1 < -(prbFour.capacity : ℤ) ∨ (prbFour.capacity : ℤ) ≤ p.1)
    ∧ (prbFour.update_priorities [4] [7]).1.priorities.getD 0 0
        = prbFour.priorities.getD 0 0 :=
  ⟨(c4_amended.1 prbFour [4] [7]).1,
   (c4_amended.1 prbFour [4] [7]).2 0 (by decide)⟩

/-! ## RainbowReplayBuffer.push case analysis -/

theorem dequeAppend_length {T : Type u} (maxlen : ℕ) (l : List T) (t : T) :
    (dequeAppend maxlen l t).length = min (l.length + 1) maxlen := by
  simp [dequeAppend]
  omega

theorem getNstepInfo_isSome (alpha : ℚ) (w : List (PTrans S A)) (hw : w ≠ []) :
    ∃ r ns d, getNstepInfo alpha w = some (r, ns, d) := by
  unfold getNstepInfo
  cases hrev : w.reverse with
  | nil => exact absurd (List.reverse_eq_nil_iff.mp hrev) hw
  | cons last rest => exact ⟨_, _, _, rfl⟩

/-- While the window is short of nstep, push only appends to the window
(lines 116-117). -/
theorem rrb_push_fill (b : RainbowReplayBuffer S A) (n : ℕ) (t : PTrans S A)
    (h2 : b.nstep_buffer.length + 1 < b.nstep) :
    b.push n t = { b with nstep_buffer := dequeAppend b.nstep b.nstep_buffer t } := by
  unfold RainbowReplayBuffer.push
  rw [if_pos]
  rw [dequeAppend_length]
  omega

/-- Once the window reaches nstep on a push, a folded transition is inserted
with the same ring-buffer and max-priority rules as the prioritized buffer
(lines 119-131). -/
theorem rrb_push_insert (b : RainbowReplayBuffer S A) (n : ℕ) (t : PTrans S A)
    (h1 : 1 ≤ b.nstep) (h2 : b.nstep ≤ b.nstep_buffer.length + 1) :
    ∃ data : PTrans S A, data.done = t.done ∧
      b.push n t = { b with
        nstep_buffer := dequeAppend b.nstep b.nstep_buffer t
        memory :=
          if b.memory.length < b.capacity then b.memory ++ [data] else b.memory.set b.pos data
        priorities := b.priorities.set b.pos (if b.memory.isEmpty then 1 else npMax b.priorities)
        pos := (b.pos + 1) % b.capacity } := by
  have hnb : (dequeAppend b.nstep b.nstep_buffer t).length
      = min (b.nstep_buffer.length + 1) b.nstep := dequeAppend_length _ _ _
  have hne : dequeAppend b.nstep b.nstep_buffer t ≠ [] := by
    intro h
    rw [h] at hnb
    simp at hnb
    omega
  obtain ⟨t0, ts, hcons⟩ := List.exists_cons_of_ne_nil hne
  obtain ⟨r, ns, d, hinfo⟩ := getNstepInfo_isSome b.alpha _ hne
  refine ⟨{ state := t0.state, action := t0.action, reward := r, next_state := ns
          , done := t.done }, rfl, ?_⟩
  unfold RainbowReplayBuffer.push
  rw [if_neg (by omega)]
  rw [hcons] at hinfo ⊢
  simp only [List.head?_cons, hinfo]

/-! ## Claim C6 -/

/-- C6: on every insertion into a priority store — PriortizedReplayBuffer's
push, and RainbowReplayBuffer's push once the window reaches nstep — the
newly written slot's priority equals the maximum of the currently stored
priorities when the store is non-empty, and 1.0 when it is empty.  The code
takes the max over the whole capacity-length array; this agrees with the max
over the valid prefix under the maintained invariants that priorities are
non-negative and slots beyond the valid range still hold their initial 0. -/
theorem c6_push_priority_is_max {S : Type u} {A : Type v} :
    (∀ (b : PriortizedReplayBuffer S A) (t : PTrans S A),
      b.priorities.length = b.capacity →
      b.memory.length ≤ b.capacity →
      b.pos < b.capacity →
      (∀ p ∈ b.priorities, 0 ≤ p) →
      (∀ p ∈ b.priorities.drop b.memory.length, p = 0) →
      (b.push t).priorities.getD b.pos 0
        = if b.memory.isEmpty then 1 else npMax (b.priorities.take b.memory.length))
    ∧ (∀ (b : RainbowReplayBuffer S A) (n : ℕ) (t : PTrans S A),
      b.priorities.length = b.capacity →
      b.memory.length ≤ b.capacity →
      b.pos < b.capacity →
      (∀ p ∈ b.priorities, 0 ≤ p) →
      (∀ p ∈ b.priorities.drop b.memory.length, p = 0) →
      1 ≤ b.nstep →
      b.nstep ≤ b.nstep_buffer.length + 1 →
      (b.push n t).priorities.getD b.pos 0
        = if b.memory.isEmpty then 1 else npMax (b.priorities.take b.memory.length)) := by
  constructor
  · intro b t hlen hmle hpos hnn hz
    have hset : (b.push t).priorities
        = b.priorities.set b.pos (if b.memory.isEmpty then 1 else npMax b.priorities) := rfl
    rw [hset, getD_set_self _ _ _ _ (by omega)]
    cases hm : b.memory.isEmpty with
    | true => simp
    | false =>
      simp only [Bool.false_eq_true, if_false]
      have hm1 : 1 ≤ b.memory.length := by
        cases hmem : b.memory with
        | nil => rw [hmem] at hm; simp at hm
        | cons x xs => simp [hmem]
      exact npMax_eq_npMax_take b.priorities b.memory.length hm1 (by omega) hnn hz
  · intro b n t hlen hmle hpos hnn hz h1 h2
    obtain ⟨data, -, heq⟩ := rrb_push_insert b n t h1 h2
    rw [heq]
    show (b.priorities.set b.pos (if b.memory.isEmpty then 1 else npMax b.priorities)).getD b.pos 0
        = _
    rw [getD_set_self _ _ _ _ (by omega)]
    cases hm : b.memory.isEmpty with
    | true => simp
    | false =>
      simp only [Bool.false_eq_true, if_false]
      have hm1 : 1 ≤ b.memory.length := by
        cases hmem : b.memory with
        | nil => rw [hmem] at hm; simp at hm
        | cons x xs => simp [hmem]
      exact npMax_eq_npMax_take b.priorities b.memory.length hm1 (by omega) hnn hz

/-- C6 witness: concrete half-full buffers (capacity 2, one stored
transition, priorities [2, 0], pos 1); the push writes priority
2 = max of the valid prefix into slot 1; for the n-step variant the window
(length 1, nstep 2) fills on this push. -/
theorem c6_push_priority_is_max_witness :
    (List.getD
        (prbHalf.push { state := 9, action := 9, reward := 1, next_state := 10, done := false }).priorities
        prbHalf.pos 0
      = if prbHalf.memory.isEmpty then 1 else npMax (prbHalf.priorities.take prbHalf.memory.length))
    ∧ (List.getD
        (rrbHalf.push 2 { state := 9, action := 9, reward := 1, next_state := 10, done := false }).priorities
        rrbHalf.pos 0
      = if rrbHalf.memory.isEmpty then 1
        else npMax (rrbHalf.priorities.take rrbHalf.memory.length)) :=
  ⟨c6_push_priority_is_max.1 prbHalf _ rfl (by decide) (by decide) (by norm_num [prbHalf])
      (by norm_num [prbHalf]),
   c6_push_priority_is_max.2 rrbHalf 2 _ rfl (by decide) (by decide) (by norm_num [rrbHalf])
      (by norm_num [rrbHalf]) (by decide) (by decide)⟩

/-! ## Length laws under iterated pushes -/

theorem uniform_push_length (b : ReplayBuffer S A) (t : UTrans S A) :
    (b.push t).buffer.length
      = if b.buffer.length < b.capacity then b.buffer.length + 1 else b.buffer.length := by
  unfold ReplayBuffer.push
  split_ifs with h <;> simp

theorem uniform_pushList_length (ts : List (UTrans S A)) :
    ∀ b : ReplayBuffer S A, b.buffer.length ≤ b.capacity →
      (b.pushList ts).buffer.length = min (b.buffer.length + ts.length) b.capacity := by
  induction ts with
  | nil =>
    intro b hb
    simp only [ReplayBuffer.pushList, List.foldl_nil, List.length_nil]
    omega
  | cons t ts ih =>
    intro b hb
    have hcap : (b.push t).capacity = b.capacity := rfl
    have hlen := uniform_push_length b t
    have hle : (b.push t).buffer.length ≤ (b.push t).capacity := by
      rw [hcap, hlen]; split_ifs <;> omega
    have hrec := ih (b.push t) hle
    simp only [ReplayBuffer.pushList, List.foldl_cons] at hrec ⊢
    rw [hrec, hcap, hlen, List.length_cons]
    split_ifs <;> omega

theorem prb_push_length (b : PriortizedReplayBuffer S A) (t : PTrans S A) :
    (b.push t).memory.length
      = if b.memory.length < b.capacity then b.memory.length + 1 else b.memory.length := by
  unfold PriortizedReplayBuffer.push
  split_ifs with h <;> simp

theorem prb_pushList_length (ts : List (PTrans S A)) :
    ∀ b : PriortizedReplayBuffer S A, b.memory.length ≤ b.capacity →
      (b.pushList ts).memory.length = min (b.memory.length + ts.length) b.capacity := by
  induction ts with
  | nil =>
    intro b hb
    simp only [PriortizedReplayBuffer.pushList, List.foldl_nil, List.length_nil]
    omega
  | cons t ts ih =>
    intro b hb
    have hcap : (b.push t).capacity = b.capacity := rfl
    have hlen := prb_push_length b t
    have hle : (b.push t).memory.length ≤ (b.push t).capacity := by
      rw [hcap, hlen]; split_ifs <;> omega
    have hrec := ih (b.push t) hle
    simp only [PriortizedReplayBuffer.pushList, List.foldl_cons] at hrec ⊢
    rw [hrec, hcap, hlen, List.length_cons]
    split_ifs <;> omega

theorem rrb_push_lengths (b : RainbowReplayBuffer S A) (n : ℕ) (t : PTrans S A)
    (h1 : 1 ≤ b.nstep) :
    (b.push n t).nstep_buffer.length = min (b.nstep_buffer.length + 1) b.nstep
    ∧ (b.push n t).memory.length
        = (if b.nstep ≤ b.nstep_buffer.length + 1 then
            (if b.memory.length < b.capacity then b.memory.length + 1 else b.memory.length)
          else b.memory.length)
    ∧ (b.push n t).capacity = b.capacity ∧ (b.push n t).nstep = b.nstep := by
  rcases Nat.lt_or_ge (b.nstep_buffer.length + 1) b.nstep with hcase | hcase
  · rw [rrb_push_fill b n t hcase]
    refine ⟨dequeAppend_length _ _ _, ?_, rfl, rfl⟩
    rw [if_neg (by omega)]
  · obtain ⟨data, -, heq⟩ := rrb_push_insert b n t h1 (by omega)
    rw [heq]
    refine ⟨dequeAppend_length _ _ _, ?_, rfl, rfl⟩
    dsimp only
    rw [if_pos (show b.nstep ≤ b.nstep_buffer.length + 1 by omega)]
    split_ifs with h <;> simp

theorem rrb_pushList_lengths (ts : List (PTrans S A)) :
    ∀ b : RainbowReplayBuffer S A, 1 ≤ b.nstep → b.nstep_buffer.length ≤ b.nstep →
      b.memory.length ≤ b.capacity →
      (b.pushList ts).memory.length
        = min (b.memory.length + (ts.length - ((b.nstep - 1) - b.nstep_buffer.length)))
            b.capacity := by
  induction ts with
  | nil =>
    intro b h1 hw hm
    simp only [RainbowReplayBuffer.pushList, List.foldl_nil, List.length_nil]
    omega
  | cons t ts ih =>
    intro b h1 hw hm
    obtain ⟨hwlen, hmlen, hcap, hn⟩ := rrb_push_lengths b b.nstep t h1
    have hrec := ih (b.push b.nstep t) (by omega) (by omega) (by rw [hcap]; split_ifs at hmlen <;> omega)
    simp only [RainbowReplayBuffer.pushList, List.foldl_cons] at hrec ⊢
    rw [hrec, hcap, hn, hmlen, hwlen, List.length_cons]
    split_ifs <;> omega

/-! ## Claim C7, amended -/

/-- C7 amended: for the uniform and prioritized buffers, len() after any
sequence of pushes into a fresh buffer equals min(number_of_pushes,
capacity); for the n-step buffer the first nstep−1 pushes only fill the
window, so len() equals min(number_of_pushes − (nstep−1), capacity)
(truncated subtraction). -/
theorem c7_amended {S : Type u} {A : Type v} :
    (∀ (capacity : ℕ), 1 ≤ capacity → ∀ ts : List (UTrans S A),
      ((mkReplayBuffer capacity).pushList ts).len = min ts.length capacity)
    ∧ (∀ (capacity : ℤ) (alpha beta inc eps : ℚ) (b : PriortizedReplayBuffer S A),
        1 ≤ capacity →
        mkPriortizedReplayBuffer capacity alpha beta inc eps = some b →
        ∀ ts : List (PTrans S A), (b.pushList ts).len = min ts.length capacity.toNat)
    ∧ (∀ (capacity nstep : ℤ) (alpha beta inc eps : ℚ) (b : RainbowReplayBuffer S A),
        1 ≤ capacity → 1 ≤ nstep →
        mkRainbowReplayBuffer capacity nstep alpha beta inc eps = some b →
        ∀ ts : List (PTrans S A),
          (b.pushList ts).len = min (ts.length - (nstep.toNat - 1)) capacity.toNat) := by
  refine ⟨?_, ?_, ?_⟩
  · intro capacity hcap ts
    have := uniform_pushList_length ts (mkReplayBuffer capacity) (by simp [mkReplayBuffer])
    simpa [ReplayBuffer.len, mkReplayBuffer] using this
  · intro capacity alpha beta inc eps b hcap hmk ts
    unfold mkPriortizedReplayBuffer at hmk
    rw [if_neg (by omega)] at hmk
    obtain rfl := (Option.some_inj.mp hmk).symm
    have hlist := prb_pushList_length (S := S) (A := A) ts
      { capacity := capacity.toNat, alpha := alpha, beta := beta, beta_increment := inc
        epsilon := eps, memory := [], priorities := List.replicate capacity.toNat 0
        pos := 0 }
      (by simp)
    simpa [PriortizedReplayBuffer.len] using hlist
  · intro capacity nstep alpha beta inc eps b hcap hn hmk ts
    unfold mkRainbowReplayBuffer at hmk
    rw [if_neg (by omega), if_neg (by omega)] at hmk
    obtain rfl := (Option.some_inj.mp hmk).symm
    have := rrb_pushList_lengths ts
      { capacity := capacity.toNat, alpha := alpha, beta := beta, beta_increment := inc
        epsilon := eps, memory := [], priorities := List.replicate capacity.toNat 0
        pos := 0, nstep := nstep.toNat, nstep_buffer := [] }
      (by simp; omega) (by simp) (by simp)
    simpa [RainbowReplayBuffer.len] using this

/-- C7 amended, witness: three pushes into fresh capacity-2 buffers give
len 2 for the uniform and prioritized variants; three pushes into a fresh
capacity-2, nstep-1 n-step buffer give len 2 as well (nstep−1 = 0 pushes are
absorbed by the window). -/
theorem c7_amended_witness :
    (((mkReplayBuffer 2 : ReplayBuffer ℤ ℤ).pushList
        [ { state := 1, action := 2, reward := 3, next_state := 4, done := false, next_action := none }
        , { state := 1, action := 2, reward := 3, next_state := 4, done := false, next_action := none }
        , { state := 1, action := 2, reward := 3, next_state := 4, done := false, next_action := none } ]).len
      = min 3 2)
    ∧ ((prbEmpty2.pushList [tA, tA, tA]).len = min 3 2)
    ∧ ((rrbEmpty2.pushList [tA, tA, tA]).len = min (3 - (1 - 1)) 2) :=
  ⟨c7_amended.1 2 (by decide) _,
   (c7_amended.2.1 2 0 0 (1/1000) (1/100000) prbEmpty2 (by decide) rfl) [tA, tA, tA],
   (c7_amended.2.2 2 1 0 0 (1/1000) (1/100000) rrbEmpty2 (by decide) (by decide) rfl) [tA, tA, tA]⟩

/-! ## Sampling machinery lemmas -/

theorem except_map_ok {ε : Type u} {α : Type v} {β : Type w} (f : α → β) (e : Except ε α) (x : β) :
    e.map f = .ok x ↔ ∃ y, e = .ok y ∧ x = f y := by
  cases e with
  | error err => simp [Except.map]
  | ok y => simp [Except.map, eq_comm]

theorem sum_map_div (l : List ℝ) (c : ℝ) :
    (l.map (fun x => x / c)).sum = l.sum / c := by
  induction l with
  | nil => simp
  | cons x xs ih => simp [ih, add_div]

theorem getD_pos_of_forall_pos (l : List ℝ) (i : ℕ) (hl : ∀ x ∈ l, 0 < x)
    (hi : i < l.length) : 0 < l.getD i 0 := by
  rw [List.getD_eq_getElem l 0 hi]
  exact hl _ (List.getElem_mem hi)

theorem listAt_some (l : List (PTrans S A)) (idxs : List ℕ)
    (h : ∀ i ∈ idxs, i < l.length) :
    ∃ s, listAt l idxs = some s ∧ s.length = idxs.length := by
  induction idxs with
  | nil => exact ⟨[], rfl, rfl⟩
  | cons i rest ih =>
    obtain ⟨s, hs, hslen⟩ := ih fun j hj => h j (List.mem_cons_of_mem _ hj)
    have hi : i < l.length := h i (List.mem_cons_self _ _)
    refine ⟨l[i] :: s, ?_, by simp [hslen]⟩
    unfold listAt
    rw [List.getElem?_eq_getElem hi, hs]

theorem npChoice_eq_ok (a size : ℕ) (p : List ℝ) (draws : List ℕ)
    (h1 : a ≠ 0) (h2 : p.length = a) (h3 : ∀ x ∈ p, 0 ≤ x) (h4 : p.sum = 1)
    (h5 : draws.length = size) (h6 : ∀ i ∈ draws, i < a ∧ 0 < p.getD i 0) :
    npChoice a size p draws = .ok draws := by
  unfold npChoice
  rw [if_neg h1, if_neg (not_not_intro h2), if_neg (not_not_intro h3),
    if_neg (not_not_intro h4), if_pos ⟨h5, h6⟩]

theorem npChoice_ok_elim (a size : ℕ) (p : List ℝ) (draws res : List ℕ)
    (h : npChoice a size p draws = .ok res) :
    res = draws ∧ a ≠ 0 ∧ draws.length = size ∧ ∀ i ∈ draws, i < a ∧ 0 < p.getD i 0 := by
  unfold npChoice at h
  split_ifs at h with h1 h2 h3 h4 h5
  all_goals
    first
      | exact Except.noConfusion h
      | (injection h with h; exact ⟨h.symm, h1, h5.1, h5.2⟩)

theorem foldl_max_map_div (l : List ℝ) (a c : ℝ) (hc : 0 ≤ c) :
    (l.map (fun x => x / c)).foldl max (a / c) = (l.foldl max a) / c := by
  induction l generalizing a with
  | nil => rfl
  | cons x xs ih =>
    simp only [List.map_cons, List.foldl_cons]
    rw [max_div_div_right hc, ih]

theorem npMax_map_div (l : List ℝ) (c : ℝ) (hc : 0 ≤ c) (hl : l ≠ []) :
    npMax (l.map (fun x => x / c)) = npMax l / c := by
  cases l with
  | nil => exact absurd rfl hl
  | cons x xs =>
    show (xs.map (fun x => x / c)).foldl max (x / c) = (xs.foldl max x) / c
    exact foldl_max_map_div xs x c hc

/-- Dividing the positive unnormalized IS weights by their maximum yields
weights all at most 1 whose maximum is exactly 1. -/
theorem isWeights_normalized (total : ℕ) (probs : List ℝ) (beta : ℚ) (indices : List ℕ)
    (hne : indices ≠ []) (htot : total ≠ 0)
    (hpos : ∀ i ∈ indices, 0 < probs.getD i 0) :
    (∀ w ∈ isWeights total probs beta indices, w ≤ 1)
    ∧ npMax (isWeights total probs beta indices) = 1 := by
  unfold isWeights
  set uw := indices.map (fun i => ((total : ℝ) * probs.getD i 0) ^ (-(beta : ℝ))) with huw
  have huwpos : ∀ u ∈ uw, 0 < u := by
    intro u hu
    rw [huw] at hu
    obtain ⟨i, hi, rfl⟩ := List.mem_map.mp hu
    refine Real.rpow_pos_of_pos (mul_pos ?_ (hpos i hi)) _
    exact_mod_cast Nat.pos_of_ne_zero htot
  have huwne : uw ≠ [] := by
    rw [huw]
    simpa using hne
  have hM : 0 < npMax uw := huwpos _ (npMax_mem uw huwne)
  constructor
  · intro w hw
    obtain ⟨u, hu, rfl⟩ := List.mem_map.mp hw
    rw [div_le_one hM]
    exact le_npMax uw u hu
  · rw [npMax_map_div uw (npMax uw) hM.le huwne, div_self hM.ne.symm]

theorem priorityProbs_facts (capacity : ℕ) (alpha epsilon : ℚ)
    (priorities : List ℚ) (pos memlen : ℕ)
    (hlen : priorities.length = capacity)
    (hposlen : memlen < capacity → pos = memlen)
    (hmle : memlen ≤ capacity)
    (hnn : ∀ q ∈ priorities, 0 ≤ q)
    (heps : 0 < epsilon)
    (hm0 : memlen ≠ 0) :
    (priorityProbs capacity alpha epsilon priorities pos memlen).length = memlen
    ∧ (∀ x ∈ priorityProbs capacity alpha epsilon priorities pos memlen, 0 < x)
    ∧ (priorityProbs capacity alpha epsilon priorities pos memlen).sum = 1 := by
  unfold priorityProbs
  set priorties := if memlen = capacity then priorities else priorities.take pos with hpr
  have hprlen : priorties.length = memlen := by
    rw [hpr]
    split_ifs with hfull
    · omega
    · have h2 : memlen < capacity := lt_of_le_of_ne hmle hfull
      rw [List.length_take, hposlen h2]
      omega
  have hprmem : ∀ q ∈ priorties, 0 ≤ q := by
    rw [hpr]
    split_ifs
    · exact hnn
    · exact fun q hq => hnn q (List.take_subset _ _ hq)
  set unnorm := priorties.map (fun p : ℚ => ((p : ℝ) + (epsilon : ℝ)) ^ ((alpha : ℝ))) with hun
  have hunpos : ∀ x ∈ unnorm, 0 < x := by
    intro x hx
    rw [hun] at hx
    obtain ⟨q, hq, rfl⟩ := List.mem_map.mp hx
    refine Real.rpow_pos_of_pos ?_ _
    have h0 : (0 : ℝ) ≤ (q : ℝ) := by exact_mod_cast hprmem q hq
    have h1 : (0 : ℝ) < (epsilon : ℝ) := by exact_mod_cast heps
    linarith
  have hunne : unnorm ≠ [] := by
    rw [hun]
    intro hcon
    rw [List.map_eq_nil_iff] at hcon
    rw [hcon] at hprlen
    simp at hprlen
    omega
  have hsum : 0 < unnorm.sum := List.sum_pos unnorm hunpos hunne
  refine ⟨?_, ?_, ?_⟩
  · show (unnorm.map (fun x => x / unnorm.sum)).length = memlen
    rw [List.length_map, hun, List.length_map, hprlen]
  · intro x hx
    obtain ⟨u, hu, rfl⟩ := List.mem_map.mp hx
    exact div_pos (hunpos u hu) hsum
  · rw [sum_map_div, div_self hsum.ne.symm]

/-- Success of the shared sample body: a well-formed non-empty store with an
admissible draw of any non-zero size returns a full batch of that size —
np.random.choice samples with replacement and never compares batch_size to
the store's length. -/
theorem prioritySampleOut_ok (capacity : ℕ) (alpha beta epsilon : ℚ)
    (memory : List (PTrans S A)) (priorities : List ℚ) (pos : ℕ)
    (batch_size : ℕ) (draws : List ℕ)
    (hmem : memory ≠ [])
    (hlen : priorities.length = capacity)
    (hposlen : memory.length < capacity → pos = memory.length)
    (hmle : memory.length ≤ capacity)
    (hnn : ∀ q ∈ priorities, 0 ≤ q)
    (heps : 0 < epsilon)
    (hd : draws.length = batch_size)
    (hdi : ∀ i ∈ draws, i < memory.length)
    (hbs : batch_size ≠ 0) :
    ∃ out : PSample S A,
      prioritySampleOut capacity alpha beta epsilon memory priorities pos batch_size draws
        = .ok out
      ∧ out.indices = draws ∧ out.states.length = batch_size := by
  have hm0 : memory.length ≠ 0 := fun hc => hmem (List.length_eq_zero.mp hc)
  obtain ⟨hplen, hppos, hpsum⟩ := priorityProbs_facts capacity alpha epsilon priorities pos
    memory.length hlen hposlen hmle hnn heps hm0
  have hchoice : npChoice memory.length batch_size
      (priorityProbs capacity alpha epsilon priorities pos memory.length) draws = .ok draws :=
    npChoice_eq_ok _ _ _ _ hm0 hplen (fun x hx => (hppos x hx).le) hpsum hd
      (fun i hi => ⟨hdi i hi,
        getD_pos_of_forall_pos _ i hppos (by rw [hplen]; exact hdi i hi)⟩)
  obtain ⟨samples, hsamp, hslen⟩ := listAt_some memory draws hdi
  have hde : ¬ (draws.isEmpty = true) := by
    rw [List.isEmpty_iff]
    intro hdnil
    apply hbs
    rw [← hd, hdnil]
    rfl
  refine ⟨{ states := samples.map (·.state), actions := samples.map (·.action)
          , rewards := samples.map (·.reward), next_states := samples.map (·.next_state)
          , dones := samples.map (·.done)
          , weights := isWeights memory.length
              (priorityProbs capacity alpha epsilon priorities pos memory.length) beta draws
          , indices := draws }, ?_, rfl, by simp [hslen, hd]⟩
  unfold prioritySampleOut
  simp only [hchoice, hsamp]
  rw [if_neg hde]

/-- Inversion of a successful shared sample: the returned weights are the
normalized IS weights over the drawn indices, the batch is non-empty, the
store is non-empty, and every drawn index is in range with positive
probability. -/
theorem prioritySampleOut_ok_elim (capacity : ℕ) (alpha beta epsilon : ℚ)
    (memory : List (PTrans S A)) (priorities : List ℚ) (pos batch_size : ℕ)
    (draws : List ℕ) (out : PSample S A)
    (h : prioritySampleOut capacity alpha beta epsilon memory priorities pos batch_size draws
        = .ok out) :
    out.weights = isWeights memory.length
        (priorityProbs capacity alpha epsilon priorities pos memory.length) beta out.indices
    ∧ out.indices ≠ [] ∧ memory.length ≠ 0
    ∧ ∀ i ∈ out.indices, i < memory.length
        ∧ 0 < (priorityProbs capacity alpha epsilon priorities pos memory.length).getD i 0 := by
  unfold prioritySampleOut at h
  cases hc : npChoice memory.length batch_size
      (priorityProbs capacity alpha epsilon priorities pos memory.length) draws with
  | error e => simp only [hc] at h; exact Except.noConfusion h
  | ok indices =>
    simp only [hc] at h
    cases hs : listAt memory indices with
    | none => simp only [hs] at h; exact Except.noConfusion h
    | some samples =>
      simp only [hs] at h
      by_cases hie : indices.isEmpty = true
      · rw [if_pos hie] at h; exact Except.noConfusion h
      · rw [if_neg hie] at h
        injection h with h
        subst h
        obtain ⟨hres, hm0, hdlen, hcond⟩ := npChoice_ok_elim _ _ _ _ _ hc
        subst hres
        exact ⟨rfl, by simpa using hie, hm0, fun i hi => hcond i hi⟩

theorem prb_sample_ok_iff (b : PriortizedReplayBuffer S A) (batch_size : ℕ)
    (draws : List ℕ) (out : PSample S A) (b' : PriortizedReplayBuffer S A) :
    b.sample batch_size draws = .ok (out, b')
      ↔ prioritySampleOut b.capacity b.alpha b.beta b.epsilon b.memory b.priorities b.pos
          batch_size draws = .ok out
        ∧ b' = { b with beta := min 1 (b.beta + b.beta_increment) } := by
  unfold PriortizedReplayBuffer.sample
  rw [except_map_ok]
  constructor
  · rintro ⟨y, hy, hxy⟩
    have h1 : out = y := congrArg Prod.fst hxy
    have h2 : b' = _ := congrArg Prod.snd hxy
    exact ⟨by rw [h1]; exact hy, h2⟩
  · rintro ⟨hok, rfl⟩
    exact ⟨out, hok, rfl⟩

theorem rrb_sample_ok_iff (b : RainbowReplayBuffer S A) (batch_size : ℕ)
    (draws : List ℕ) (out : PSample S A) (b' : RainbowReplayBuffer S A) :
    b.sample batch_size draws = .ok (out, b')
      ↔ prioritySampleOut b.capacity b.alpha b.beta b.epsilon b.memory b.priorities b.pos
          batch_size draws = .ok out
        ∧ b' = { b with beta := min 1 (b.beta + b.beta_increment) } := by
  unfold RainbowReplayBuffer.sample
  rw [except_map_ok]
  constructor
  · rintro ⟨y, hy, hxy⟩
    have h1 : out = y := congrArg Prod.fst hxy
    have h2 : b' = _ := congrArg Prod.snd hxy
    exact ⟨by rw [h1]; exact hy, h2⟩
  · rintro ⟨hok, rfl⟩
    exact ⟨out, hok, rfl⟩

/-- Concrete successful sample on the one-element prioritized buffer, with a
batch size of 2 exceeding the stored length of 1. -/
theorem prbOne_sample_ok :
    ∃ out b', prbOne.sample 2 [0, 0] = .ok (out, b')
      ∧ out.indices.length = 2 ∧ out.states.length = 2 := by
  obtain ⟨out, hok, hidx, hst⟩ := prioritySampleOut_ok prbOne.capacity prbOne.alpha
    prbOne.beta prbOne.epsilon prbOne.memory prbOne.priorities prbOne.pos 2 [0, 0]
    (by decide) rfl (by decide) (by decide)
    (by norm_num [prbOne, prbEmpty2, PriortizedReplayBuffer.push])
    (by norm_num [prbOne, prbEmpty2, PriortizedReplayBuffer.push])
    rfl (by decide) (by decide)
  exact ⟨out, _, (prb_sample_ok_iff prbOne 2 [0, 0] out _).mpr ⟨hok, rfl⟩,
    by rw [hidx]; rfl, hst⟩

/-- Concrete successful sample on the one-element n-step buffer. -/
theorem rrbOne_sample_ok :
    ∃ out b', rrbOne.sample 2 [0, 0] = .ok (out, b')
      ∧ out.indices.length = 2 ∧ out.states.length = 2 := by
  obtain ⟨out, hok, hidx, hst⟩ := prioritySampleOut_ok rrbOne.capacity rrbOne.alpha
    rrbOne.beta rrbOne.epsilon rrbOne.memory rrbOne.priorities rrbOne.pos 2 [0, 0]
    (by decide) rfl (by decide) (by decide)
    (by norm_num [rrbOne, rrbEmpty2, RainbowReplayBuffer.push, dequeAppend, getNstepInfo,
      nstepFoldStep, npMax])
    (by norm_num [rrbOne, rrbEmpty2, RainbowReplayBuffer.push, dequeAppend, getNstepInfo,
      nstepFoldStep, npMax])
    rfl (by decide) (by decide)
  exact ⟨out, _, (rrb_sample_ok_iff rrbOne 2 [0, 0] out _).mpr ⟨hok, rfl⟩,
    by rw [hidx]; rfl, hst⟩

/-! ## Claim C3 -/

/-- C3 counterexample: the prioritized buffer holds one transition, yet
sample(2) — batch_size strictly greater than the valid length — succeeds and
returns a full 2-element batch instead of failing. -/
theorem c3_counterexample :
    prbOne.len = 1
    ∧ ∃ out b', prbOne.sample 2 [0, 0] = .ok (out, b')
        ∧ out.indices.length = 2 ∧ out.states.length = 2 :=
  ⟨rfl, prbOne_sample_ok⟩

/-- C3 amended: only the uniform buffer rejects batch_size greater than the
current length (random.sample without replacement raises ValueError).  The
two priority variants draw with np.random.choice with replacement, which
never compares batch_size to the valid length: on a well-formed non-empty
store, sample succeeds for every non-zero batch_size — including sizes
exceeding len() — and returns a full, untruncated batch of batch_size
elements. -/
theorem c3_amended {S : Type u} {A : Type v} :
    (∀ (b : ReplayBuffer S A) (batch_size : ℕ) (idxs : List ℕ),
      b.len < batch_size →
      b.sample batch_size idxs
        = .error "ValueError: Sample larger than population or is negative")
    ∧ (∀ (b : PriortizedReplayBuffer S A) (batch_size : ℕ) (draws : List ℕ),
      b.memory ≠ [] →
      b.priorities.length = b.capacity →
      (b.memory.length < b.capacity → b.pos = b.memory.length) →
      b.memory.length ≤ b.capacity →
      (∀ q ∈ b.priorities, 0 ≤ q) →
      0 < b.epsilon →
      draws.length = batch_size →
      (∀ i ∈ draws, i < b.memory.length) →
      batch_size ≠ 0 →
      ∃ out b', b.sample batch_size draws = .ok (out, b')
        ∧ out.indices.length = batch_size ∧ out.states.length = batch_size)
    ∧ (∀ (b : RainbowReplayBuffer S A) (batch_size : ℕ) (draws : List ℕ),
      b.memory ≠ [] →
      b.priorities.length = b.capacity →
      (b.memory.length < b.capacity → b.pos = b.memory.length) →
      b.memory.length ≤ b.capacity →
      (∀ q ∈ b.priorities, 0 ≤ q) →
      0 < b.epsilon →
      draws.length = batch_size →
      (∀ i ∈ draws, i < b.memory.length) →
      batch_size ≠ 0 →
      ∃ out b', b.sample batch_size draws = .ok (out, b')
        ∧ out.indices.length = batch_size ∧ out.states.length = batch_size) := by
  refine ⟨?_, ?_, ?_⟩
  · intro b batch_size idxs hlt
    unfold ReplayBuffer.sample
    rw [if_pos (show b.buffer.length < batch_size from hlt)]
  · intro b batch_size draws hmem hlen hposlen hmle hnn heps hd hdi hbs
    obtain ⟨out, hok, hidx, hst⟩ := prioritySampleOut_ok b.capacity b.alpha b.beta b.epsilon
      b.memory b.priorities b.pos batch_size draws hmem hlen hposlen hmle hnn heps hd hdi hbs
    exact ⟨out, _, (prb_sample_ok_iff b batch_size draws out _).mpr ⟨hok, rfl⟩,
      by rw [hidx, hd], hst⟩
  · intro b batch_size draws hmem hlen hposlen hmle hnn heps hd hdi hbs
    obtain ⟨out, hok, hidx, hst⟩ := prioritySampleOut_ok b.capacity b.alpha b.beta b.epsilon
      b.memory b.priorities b.pos batch_size draws hmem hlen hposlen hmle hnn heps hd hdi hbs
    exact ⟨out, _, (rrb_sample_ok_iff b batch_size draws out _).mpr ⟨hok, rfl⟩,
      by rw [hidx, hd], hst⟩

/-- C3 amended, witness: the uniform buffer with one filled slot rejects
batch_size 2; the prioritized and n-step buffers with one stored transition
return full 2-element batches. -/
theorem c3_amended_witness :
    (ubOne.sample 2 [0, 1]
      = .error "ValueError: Sample larger than population or is negative")
    ∧ (∃ out b', prbOne.sample 2 [0, 0] = .ok (out, b')
        ∧ out.indices.length = 2 ∧ out.states.length = 2)
    ∧ (∃ out b', rrbOne.sample 2 [0, 0] = .ok (out, b')
        ∧ out.indices.length = 2 ∧ out.states.length = 2) :=
  ⟨c3_amended.1 ubOne 2 [0, 1] (by decide),
   c3_amended.2.1 prbOne 2 [0, 0] (by decide) rfl (by decide) (by decide)
     (by norm_num [prbOne, prbEmpty2, PriortizedReplayBuffer.push])
     (by norm_num [prbOne, prbEmpty2, PriortizedReplayBuffer.push])
     rfl (by decide) (by decide),
   c3_amended.2.2 rrbOne 2 [0, 0] (by decide) rfl (by decide) (by decide)
     (by norm_num [rrbOne, rrbEmpty2, RainbowReplayBuffer.push, dequeAppend, getNstepInfo,
       nstepFoldStep, npMax])
     (by norm_num [rrbOne, rrbEmpty2, RainbowReplayBuffer.push, dequeAppend, getNstepInfo,
       nstepFoldStep, npMax])
     rfl (by decide) (by decide)⟩

/-! ## Claim C8 -/

/-- C8: every IS weight returned by a successful priority-variant sample is
at most 1, and the maximum weight within the returned batch is exactly 1 —
the unnormalized weights (N · probs[idx])^(−β) are positive and line 83/157
divides them by their maximum. -/
theorem c8_weights_normalized {S : Type u} {A : Type v} :
    (∀ (b : PriortizedReplayBuffer S A) (batch_size : ℕ) (draws : List ℕ)
        (out : PSample S A) (b' : PriortizedReplayBuffer S A),
      b.sample batch_size draws = .ok (out, b') →
      (∀ w ∈ out.weights, w ≤ 1) ∧ npMax out.weights = 1)
    ∧ (∀ (b : RainbowReplayBuffer S A) (batch_size : ℕ) (draws : List ℕ)
        (out : PSample S A) (b' : RainbowReplayBuffer S A),
      b.sample batch_size draws = .ok (out, b') →
      (∀ w ∈ out.weights, w ≤ 1) ∧ npMax out.weights = 1) := by
  have core : ∀ (capacity : ℕ) (alpha beta epsilon : ℚ) (memory : List (PTrans S A))
      (priorities : List ℚ) (pos batch_size : ℕ) (draws : List ℕ) (out : PSample S A),
      prioritySampleOut capacity alpha beta epsilon memory priorities pos batch_size draws
        = .ok out →
      (∀ w ∈ out.weights, w ≤ 1) ∧ npMax out.weights = 1 := by
    intro capacity alpha beta epsilon memory priorities pos batch_size draws out h
    obtain ⟨hw, hne, hm0, hcond⟩ :=
      prioritySampleOut_ok_elim capacity alpha beta epsilon memory priorities pos
        batch_size draws out h
    rw [hw]
    exact isWeights_normalized _ _ _ _ hne hm0 (fun i hi => (hcond i hi).2)
  constructor
  · intro b batch_size draws out b' h
    exact core _ _ _ _ _ _ _ _ _ _ ((prb_sample_ok_iff b batch_size draws out b').mp h).1
  · intro b batch_size draws out b' h
    exact core _ _ _ _ _ _ _ _ _ _ ((rrb_sample_ok_iff b batch_size draws out b').mp h).1

/-- C8 witness: concrete successful samples on the one-element prioritized
and n-step buffers; their returned weights are all at most 1 with maximum
exactly 1. -/
theorem c8_weights_normalized_witness :
    (∃ out b', prbOne.sample 2 [0, 0] = .ok (out, b')
      ∧ (∀ w ∈ out.weights, w ≤ 1) ∧ npMax out.weights = 1)
    ∧ (∃ out b', rrbOne.sample 2 [0, 0] = .ok (out, b')
      ∧ (∀ w ∈ out.weights, w ≤ 1) ∧ npMax out.weights = 1) := by
  constructor
  · obtain ⟨out, b', hok, -, -⟩ := prbOne_sample_ok
    exact ⟨out, b', hok, c8_weights_normalized.1 prbOne 2 [0, 0] out b' hok⟩
  · obtain ⟨out, b', hok, -, -⟩ := rrbOne_sample_ok
    exact ⟨out, b', hok, c8_weights_normalized.2 rrbOne 2 [0, 0] out b' hok⟩

/-! ## Claim C9 -/

/-- C9: a successful sample call on either priority variant advances beta to
min(1.0, beta + beta_increment) (line 84 / 158); hence with a non-negative
increment and beta at most 1, beta is non-decreasing across successive
sample calls and never exceeds 1. -/
theorem c9_beta_anneal {S : Type u} {A : Type v} :
    (∀ (b : PriortizedReplayBuffer S A) (batch_size : ℕ) (draws : List ℕ)
        (out : PSample S A) (b' : PriortizedReplayBuffer S A),
      b.sample batch_size draws = .ok (out, b') →
      b'.beta = min 1 (b.beta + b.beta_increment)
      ∧ (0 ≤ b.beta_increment → b.beta ≤ 1 → b.beta ≤ b'.beta ∧ b'.beta ≤ 1))
    ∧ (∀ (b : RainbowReplayBuffer S A) (batch_size : ℕ) (draws : List ℕ)
        (out : PSample S A) (b' : RainbowReplayBuffer S A),
      b.sample batch_size draws = .ok (out, b') →
      b'.beta = min 1 (b.beta + b.beta_increment)
      ∧ (0 ≤ b.beta_increment → b.beta ≤ 1 → b.beta ≤ b'.beta ∧ b'.beta ≤ 1)) := by
  constructor
  · intro b batch_size draws out b' h
    obtain ⟨-, rfl⟩ := (prb_sample_ok_iff b batch_size draws out b').mp h
    exact ⟨rfl, fun hinc hb1 => ⟨le_min hb1 (by linarith), min_le_left _ _⟩⟩
  · intro b batch_size draws out b' h
    obtain ⟨-, rfl⟩ := (rrb_sample_ok_iff b batch_size draws out b').mp h
    exact ⟨rfl, fun hinc hb1 => ⟨le_min hb1 (by linarith), min_le_left _ _⟩⟩

/-- C9 witness: on the concrete one-element buffers with beta 0 and
increment 0.001, a successful sample advances beta to
min(1, 0.001) with 0 ≤ beta' ≤ 1. -/
theorem c9_beta_anneal_witness :
    (∃ out b', prbOne.sample 2 [0, 0] = .ok (out, b')
      ∧ b'.beta = min 1 (prbOne.beta + prbOne.beta_increment)
      ∧ prbOne.beta ≤ b'.beta ∧ b'.beta ≤ 1)
    ∧ (∃ out b', rrbOne.sample 2 [0, 0] = .ok (out, b')
      ∧ b'.beta = min 1 (rrbOne.beta + rrbOne.beta_increment)
      ∧ rrbOne.beta ≤ b'.beta ∧ b'.beta ≤ 1) := by
  constructor
  · obtain ⟨out, b', hok, -, -⟩ := prbOne_sample_ok
    have h := c9_beta_anneal.1 prbOne 2 [0, 0] out b' hok
    exact ⟨out, b', hok, h.1,
      h.2 (by norm_num [prbOne, prbEmpty2, PriortizedReplayBuffer.push])
          (by norm_num [prbOne, prbEmpty2, PriortizedReplayBuffer.push])⟩
  · obtain ⟨out, b', hok, -, -⟩ := rrbOne_sample_ok
    have h := c9_beta_anneal.2 rrbOne 2 [0, 0] out b' hok
    exact ⟨out, b', hok, h.1,
      h.2 (by norm_num [rrbOne, rrbEmpty2, RainbowReplayBuffer.push, dequeAppend,
            getNstepInfo, nstepFoldStep, npMax])
          (by norm_num [rrbOne, rrbEmpty2, RainbowReplayBuffer.push, dequeAppend,
            getNstepInfo, nstepFoldStep, npMax])⟩

end ReplayBufferPy
